import Mathlib

/-
Verification of the Drossel-Schwabl forest fire simulator
(src/drossel-schwabl_forest_fire_model.py, class ForestFireModel).

The grid is an n x n array of cell states, encoded as in the source:
0 = empty, 1 = tree, 2 = burning (fire), 3 = burnt/ash.

All stochastic draws (numpy.random.random() < p comparisons) are
abstracted as explicit boolean oracles passed to the update, so that the
whole step function is a pure, executable Lean function mirroring the
vectorized numpy code line by line.
-/

set_option maxHeartbeats 1000000

namespace ForestFire

/-- A grid coordinate: row and column, both below the side length n. -/
abbrev Cell (n : Nat) := Fin n × Fin n

/-- Outcomes of the per-cell random draws consumed by one call to step:
for each cell, whether the uniform draw fell below p_tree (tree growth on
an empty cell) and whether it fell below p_fire (lightning strike). -/
structure Rand (n : Nat) where
  newTree : Cell n → Bool
  lightning : Cell n → Bool

/-- One entry of the cluster registry, mirroring the Python dict
value {birth, death, max_size, sizes}.  The death field is None (here:
Option.none) while the cluster is still active. -/
structure ClusterInfo where
  birth : Nat
  death : Option Nat
  max_size : Nat
  sizes : List (Nat × Nat)
deriving DecidableEq

/-- The full simulator state, mirroring the attributes of the Python
class ForestFireModel.  The two n x n numpy arrays (grid and
fire_cluster_ids) are total functions on cells; the two deques are lists
together with the stored maxlen (window_size); the two dicts
(cluster_registry and current_clusters) are association lists in
insertion order. -/
@[ext]
structure FFState (n : Nat) where
  p_tree : Rat
  p_fire : Rat
  grid : Cell n → Nat
  fire_cluster_ids : Cell n → Nat
  next_cluster_id : Nat
  step_count : Nat
  window_size : Nat
  active_fire_history : List (Nat × Nat)
  cluster_registry : List (Nat × ClusterInfo)
  current_clusters : List (Nat × Nat)

/-- Append to a bounded deque of capacity W, keeping only the most recent
W elements (collections.deque with maxlen = W: appending at capacity
evicts the oldest element; with maxlen 0 the deque stays empty). -/
def evictAppend {α : Type} (W : Nat) (l : List α) (x : α) : List α :=
  (l ++ [x]).drop (l.length + 1 - W)

/-- The constructor ForestFireModel.__init__.  The initial 30 percent
tree seeding (np.random.random < 0.3) is abstracted as the boolean
oracle initTree.  Note that the constructor performs no validation of
its parameters. -/
def mkForestFireModel (n : Nat) (p_tree p_fire : Rat) (initTree : Cell n → Bool) :
    FFState n where
  p_tree := p_tree
  p_fire := p_fire
  grid := fun c => if initTree c then 1 else 0
  fire_cluster_ids := fun _ => 0
  next_cluster_id := 1
  step_count := 0
  window_size := 6000
  active_fire_history := []
  cluster_registry := []
  current_clusters := []

/-! Neighbor access.  The source shifts the burning mask with np.roll and
masks out the wrap-around, so the neighborhood is the non-wrapping
4-neighborhood.  In the code, up[i,j] is burning[i+1,j] (for i < n-1),
down[i,j] is burning[i-1,j] (for i > 0), left[i,j] is burning[i,j+1]
(for j < n-1) and right[i,j] is burning[i,j-1] (for j > 0). -/

/-- The neighbor one row further (row index + 1), if it exists. -/
def nbrUp {n : Nat} (c : Cell n) : Option (Cell n) :=
  if h : (c.1 : Nat) + 1 < n then some (⟨(c.1 : Nat) + 1, h⟩, c.2) else none

/-- The neighbor one row back (row index - 1), if it exists. -/
def nbrDown {n : Nat} (c : Cell n) : Option (Cell n) :=
  if 0 < (c.1 : Nat) then
    some (⟨(c.1 : Nat) - 1, lt_of_le_of_lt (Nat.sub_le _ _) c.1.isLt⟩, c.2)
  else none

/-- The neighbor one column further (column index + 1), if it exists. -/
def nbrLeft {n : Nat} (c : Cell n) : Option (Cell n) :=
  if h : (c.2 : Nat) + 1 < n then some (c.1, ⟨(c.2 : Nat) + 1, h⟩) else none

/-- The neighbor one column back (column index - 1), if it exists. -/
def nbrRight {n : Nat} (c : Cell n) : Option (Cell n) :=
  if 0 < (c.2 : Nat) then
    some (c.1, ⟨(c.2 : Nat) - 1, lt_of_le_of_lt (Nat.sub_le _ _) c.2.isLt⟩)
  else none

/-- Whether an optional neighbor exists and is burning (state 2). -/
def burnsAt {n : Nat} (g : Cell n → Nat) (o : Option (Cell n)) : Bool :=
  match o with
  | some d => g d == 2
  | none => false

/-- fire_neighbors_mask = up OR down OR left OR right: the cell has at
least one burning 4-neighbor. -/
def fireNeighbors {n : Nat} (g : Cell n → Nat) (c : Cell n) : Bool :=
  burnsAt g (nbrUp c) || burnsAt g (nbrDown c) ||
  burnsAt g (nbrLeft c) || burnsAt g (nbrRight c)

/-- Prepend the cluster id of an optional neighbor to acc when that
neighbor exists and is burning (the id_up = roll(ids) * up masking). -/
def consBurning {n : Nat} (g ids : Cell n → Nat) (o : Option (Cell n))
    (acc : List Nat) : List Nat :=
  match o with
  | some d => if g d == 2 then ids d :: acc else acc
  | none => acc

/-- The list of cluster ids of the burning in-bounds 4-neighbors of c. -/
def burningNbrIds {n : Nat} (g ids : Cell n → Nat) (c : Cell n) : List Nat :=
  consBurning g ids (nbrUp c) (consBurning g ids (nbrDown c)
    (consBurning g ids (nbrLeft c) (consBurning g ids (nbrRight c) [])))

/-- max_neighbor_id = np.maximum.reduce([id_up, id_down, id_left,
id_right]): the maximum over the masked neighbor id arrays, i.e. the
maximum cluster id among the burning 4-neighbors, 0 when there is none. -/
def maxNeighborId {n : Nat} (g ids : Cell n → Nat) (c : Cell n) : Nat :=
  (burningNbrIds g ids c).foldr max 0

/-- ignited_trees = trees AND (fire_neighbors_mask OR lightning_mask). -/
def ignites {n : Nat} (r : Rand n) (s : FFState n) (c : Cell n) : Bool :=
  (s.grid c == 1) && (fireNeighbors s.grid c || r.lightning c)

/-- new_lightning_mask = ignited_trees AND NOT fire_neighbors_mask. -/
def lightningNew {n : Nat} (r : Rand n) (s : FFState n) (c : Cell n) : Bool :=
  ignites r s c && !(fireNeighbors s.grid c)

/-- propagated_mask = ignited_trees AND fire_neighbors_mask. -/
def propagated {n : Nat} (r : Rand n) (s : FFState n) (c : Cell n) : Bool :=
  ignites r s c && fireNeighbors s.grid c

/-- Row-major (C-order) position of a cell, the order in which numpy
boolean mask assignment fills values. -/
def cellIdx {n : Nat} (c : Cell n) : Nat := (c.1 : Nat) * n + (c.2 : Nat)

/-- The set of cells ignited purely by lightning this step. -/
def lightningCells {n : Nat} (r : Rand n) (s : FFState n) : Finset (Cell n) :=
  Finset.univ.filter (fun c => lightningNew r s c = true)

/-- num_new_fires = np.sum(new_lightning_mask). -/
def numNewFires {n : Nat} (r : Rand n) (s : FFState n) : Nat :=
  (lightningCells r s).card

/-- The position of a lightning cell in row-major order among all
lightning cells of this step: new_ids = arange(next_cluster_id,
next_cluster_id + num_new_fires) is assigned to the True positions of
new_lightning_mask in row-major order, so the cell with rank k receives
id next_cluster_id + k. -/
def lightningRank {n : Nat} (r : Rand n) (s : FFState n) (c : Cell n) : Nat :=
  ((lightningCells r s).filter (fun d => cellIdx d < cellIdx c)).card

/-- new_cluster_ids: the id assigned to each newly ignited tree (0 on all
other cells).  A cell ignited next to fire inherits the maximum burning
neighbor id; a pure lightning cell receives the next free id from the
global counter, in row-major order. -/
def newClusterIds {n : Nat} (r : Rand n) (s : FFState n) (c : Cell n) : Nat :=
  if propagated r s c then maxNeighborId s.grid s.fire_cluster_ids c
  else if lightningNew r s c then s.next_cluster_id + lightningRank r s c
  else 0

/-- ash_ids = where(burnt_history, ids, where(burning, ids, 0)): the
prior cluster id on cells that were burning or ash, 0 elsewhere. -/
def ashIds {n : Nat} (s : FFState n) (c : Cell n) : Nat :=
  if s.grid c == 3 then s.fire_cluster_ids c
  else if s.grid c == 2 then s.fire_cluster_ids c
  else 0

/-- active_ids = np.unique(new_cluster_ids[ignited_trees]): the ids
occurring among the newly ignited cells. -/
def activeIdsF {n : Nat} (r : Rand n) (s : FFState n) : Finset Nat :=
  (Finset.univ.filter (fun c => ignites r s c = true)).image (newClusterIds r s)

/-- active_ash_mask = isin(ash_ids, active_ids) AND ash_ids > 0. -/
def activeAsh {n : Nat} (r : Rand n) (s : FFState n) (c : Cell n) : Bool :=
  decide (ashIds s c ∈ activeIdsF r s) && decide (0 < ashIds s c)

/-- The next grid.  The source zeroes the grid and then writes, in
order: surviving trees (1), new trees (1), active ash (3), ignited cells
(2); the masks are pairwise disjoint except that a later write would
win, hence the priority chain below. -/
def newGrid {n : Nat} (r : Rand n) (s : FFState n) (c : Cell n) : Nat :=
  if ignites r s c then 2
  else if activeAsh r s c then 3
  else if (s.grid c == 0) && r.newTree c then 1
  else if (s.grid c == 1) && !(ignites r s c) then 1
  else 0

/-- The next cluster-id grid: zeroed, then ids of ignited cells, then
ids of surviving ash (the two masks are disjoint since ignited cells
were trees and ash candidates were burning or ash). -/
def newIdsGrid {n : Nat} (r : Rand n) (s : FFState n) (c : Cell n) : Nat :=
  if activeAsh r s c then ashIds s c
  else if ignites r s c then newClusterIds r s c
  else 0

/-! Registry bookkeeping.  The Python dict is modelled as an association
list in insertion order: updating an existing key rewrites it in place,
a new key is appended at the end. -/

/-- Write a key in a dict modelled as an association list: replace the
first occurrence in place, or append the binding at the end. -/
def setEntry (cid : Nat) (e : ClusterInfo) :
    List (Nat × ClusterInfo) → List (Nat × ClusterInfo)
  | [] => [(cid, e)]
  | (k, v) :: rest =>
      if k = cid then (k, e) :: rest else (k, v) :: setEntry cid e rest

/-- cluster_size = np.sum(fire_cluster_ids == cluster_id): the number of
cells of the (new) cluster-id grid carrying the id.  Note that this
counts burning and ash cells alike. -/
def clusterSize {n : Nat} (ids : Cell n → Nat) (cid : Nat) : Nat :=
  (Finset.univ.filter (fun c : Cell n => ids c = cid)).card

/-- The per-id registry update of the data collection phase: create the
entry on first sight (birth = current step, death = None, max_size =
size, empty bounded deque), then in both cases append (step, size) to
the size deque and raise max_size to the new size if larger. -/
def updateOne {n : Nat} (stepc W : Nat) (ids : Cell n → Nat)
    (reg : List (Nat × ClusterInfo)) (cid : Nat) : List (Nat × ClusterInfo) :=
  match reg.lookup cid with
  | none =>
      setEntry cid
        { birth := stepc, death := none, max_size := clusterSize ids cid,
          sizes := evictAppend W [] (stepc, clusterSize ids cid) } reg
  | some e =>
      setEntry cid
        { birth := e.birth, death := e.death,
          max_size := max e.max_size (clusterSize ids cid),
          sizes := evictAppend W e.sizes (stepc, clusterSize ids cid) } reg

/-- The for-loop over the active cluster ids of this step. -/
def regUpdate {n : Nat} (stepc W : Nat) (ids : Cell n → Nat) (L : List Nat)
    (reg : List (Nat × ClusterInfo)) : List (Nat × ClusterInfo) :=
  L.foldl (updateOne stepc W ids) reg

/-- Record the death of one id: set death to the current step only when
the entry exists and its death is still unset. -/
def markDeath (stepc : Nat) (reg : List (Nat × ClusterInfo)) (cid : Nat) :
    List (Nat × ClusterInfo) :=
  match reg.lookup cid with
  | some e =>
      if e.death = none then setEntry cid { e with death := some stepc } reg
      else reg
  | none => reg

/-- The for-loop over the ids that died this step. -/
def markDeaths (stepc : Nat) (reg : List (Nat × ClusterInfo))
    (died : List Nat) : List (Nat × ClusterInfo) :=
  died.foldl (markDeath stepc) reg

/-- Registry pruning: drop every entry whose death is set and further
than window_size steps in the past.  The source keeps an entry unless
step_count - death > window_size; for the natural-number subtraction
used here this is the same decision as with Python integers, because a
death in the future (death > step_count) is kept in both readings. -/
def pruneReg (stepc W : Nat) (reg : List (Nat × ClusterInfo)) :
    List (Nat × ClusterInfo) :=
  reg.filter (fun p =>
    match p.2.death with
    | none => true
    | some d => decide (stepc - d ≤ W))

/-- All cells of the n x n grid, enumerated in row-major order. -/
def allCells (n : Nat) : List (Cell n) :=
  (List.finRange n).flatMap fun i => (List.finRange n).map fun j => (i, j)

/-- The ids present on burning cells of the new grid, without 0 and
without duplicates, in ascending order (set(fire_cluster_ids[grid == 2])
with 0 discarded; a Python set of small ints iterates in ascending
order, and no observable behavior depends on the order). -/
def activeList {n : Nat} (r : Rand n) (s : FFState n) : List Nat :=
  ((((allCells n).filter fun c => newGrid r s c == 2).map
      (newIdsGrid r s)).dedup.filter fun x => x != 0).insertionSort (· ≤ ·)

/-- One call of ForestFireModel.step, translated phase by phase from the
source: grid transition and cluster-id propagation, then the data
collection (step counter, active fire history, registry update, death
detection, pruning).  The source increments next_cluster_id by
num_new_fires only when it is positive; adding 0 is the same. -/
def FFState.step {n : Nat} (s : FFState n) (r : Rand n) : FFState n :=
  let g2 := newGrid r s
  let ids2 := newIdsGrid r s
  let sc := s.step_count + 1
  let L := activeList r s
  let reg1 := regUpdate sc s.window_size ids2 L s.cluster_registry
  let died := (s.current_clusters.map Prod.fst).filter fun cid => decide (cid ∉ L)
  let reg2 := markDeaths sc reg1 died
  { p_tree := s.p_tree
    p_fire := s.p_fire
    grid := g2
    fire_cluster_ids := ids2
    next_cluster_id := s.next_cluster_id + numNewFires r s
    step_count := sc
    window_size := s.window_size
    active_fire_history := evictAppend s.window_size s.active_fire_history
      (sc, (Finset.univ.filter (fun c : Cell n => g2 c = 2)).card)
    cluster_registry := pruneReg sc s.window_size reg2
    current_clusters := L.map fun cid => (cid, clusterSize ids2 cid) }

/-- The states a simulator instance can be in: freshly constructed, or
the result of one more step from a reachable state, under arbitrary
random draws. -/
inductive Reachable {n : Nat} : FFState n → Prop
  | init (p_tree p_fire : Rat) (initTree : Cell n → Bool) :
      Reachable (mkForestFireModel n p_tree p_fire initTree)
  | next (r : Rand n) (s : FFState n) : Reachable s → Reachable (s.step r)

/-! ### Projections of one step -/

lemma step_grid {n : Nat} (s : FFState n) (r : Rand n) :
    (s.step r).grid = newGrid r s := rfl

lemma step_ids {n : Nat} (s : FFState n) (r : Rand n) :
    (s.step r).fire_cluster_ids = newIdsGrid r s := rfl

lemma step_next {n : Nat} (s : FFState n) (r : Rand n) :
    (s.step r).next_cluster_id = s.next_cluster_id + numNewFires r s := rfl

lemma step_stepCount {n : Nat} (s : FFState n) (r : Rand n) :
    (s.step r).step_count = s.step_count + 1 := rfl

lemma step_window {n : Nat} (s : FFState n) (r : Rand n) :
    (s.step r).window_size = s.window_size := rfl

lemma step_registry {n : Nat} (s : FFState n) (r : Rand n) :
    (s.step r).cluster_registry =
      pruneReg (s.step_count + 1) s.window_size
        (markDeaths (s.step_count + 1)
          (regUpdate (s.step_count + 1) s.window_size (newIdsGrid r s)
            (activeList r s) s.cluster_registry)
          ((s.current_clusters.map Prod.fst).filter fun cid =>
            decide (cid ∉ activeList r s))) := rfl

lemma step_current {n : Nat} (s : FFState n) (r : Rand n) :
    (s.step r).current_clusters =
      (activeList r s).map fun cid => (cid, clusterSize (newIdsGrid r s) cid) := rfl

lemma step_history {n : Nat} (s : FFState n) (r : Rand n) :
    (s.step r).active_fire_history =
      evictAppend s.window_size s.active_fire_history
        (s.step_count + 1,
          (Finset.univ.filter fun c : Cell n => newGrid r s c = 2).card) := rfl

/-! ### Basic facts about the masks -/

lemma grid_of_ignites {n : Nat} {r : Rand n} {s : FFState n} {c : Cell n}
    (h : ignites r s c = true) : s.grid c = 1 := by
  simp only [ignites, Bool.and_eq_true, beq_iff_eq] at h
  exact h.1

lemma ignites_of_grid_ne {n : Nat} {r : Rand n} {s : FFState n} {c : Cell n}
    (h : s.grid c ≠ 1) : ignites r s c = false := by
  cases hb : ignites r s c
  · rfl
  · exact absurd (grid_of_ignites hb) h

lemma ashIds_of_burning {n : Nat} {s : FFState n} {c : Cell n}
    (h : s.grid c = 2 ∨ s.grid c = 3) : ashIds s c = s.fire_cluster_ids c := by
  rcases h with h | h <;> simp [ashIds, h]

lemma ashIds_of_other {n : Nat} {s : FFState n} {c : Cell n}
    (h2 : s.grid c ≠ 2) (h3 : s.grid c ≠ 3) : ashIds s c = 0 := by
  simp [ashIds, h2, h3]

lemma ashIds_cases {n : Nat} (s : FFState n) (c : Cell n) :
    ashIds s c = s.fire_cluster_ids c ∨ ashIds s c = 0 := by
  unfold ashIds
  split
  · exact Or.inl rfl
  · split
    · exact Or.inl rfl
    · exact Or.inr rfl

lemma activeAsh_iff {n : Nat} {r : Rand n} {s : FFState n} {c : Cell n} :
    activeAsh r s c = true ↔ ashIds s c ∈ activeIdsF r s ∧ 0 < ashIds s c := by
  simp [activeAsh]

lemma activeAsh_of_grid_one {n : Nat} {r : Rand n} {s : FFState n} {c : Cell n}
    (h : s.grid c = 1) : activeAsh r s c = false := by
  have h0 : ashIds s c = 0 := ashIds_of_other (by omega) (by omega)
  simp [activeAsh, h0]

lemma mem_activeIdsF {n : Nat} {r : Rand n} {s : FFState n} {x : Nat} :
    x ∈ activeIdsF r s ↔ ∃ c, ignites r s c = true ∧ newClusterIds r s c = x := by
  simp [activeIdsF, Finset.mem_image, Finset.mem_filter]

/-! ### The new grid and the new cluster-id grid, case by case -/

lemma newGrid_of_ignites {n : Nat} {r : Rand n} {s : FFState n} {c : Cell n}
    (h : ignites r s c = true) : newGrid r s c = 2 := by
  simp [newGrid, h]

lemma newGrid_eq_two_iff {n : Nat} {r : Rand n} {s : FFState n} {c : Cell n} :
    newGrid r s c = 2 ↔ ignites r s c = true := by
  refine ⟨fun h => ?_, newGrid_of_ignites⟩
  cases hig : ignites r s c
  · exfalso
    simp only [newGrid, hig, Bool.false_eq_true, if_false] at h
    split at h
    · exact absurd h (by decide)
    · split at h
      · exact absurd h (by decide)
      · split at h
        · exact absurd h (by decide)
        · exact absurd h (by decide)
  · rfl

lemma newGrid_eq_three_iff {n : Nat} {r : Rand n} {s : FFState n} {c : Cell n} :
    newGrid r s c = 3 ↔ ignites r s c = false ∧ activeAsh r s c = true := by
  constructor
  · intro h
    cases hig : ignites r s c
    · cases hash : activeAsh r s c
      · exfalso
        simp only [newGrid, hig, hash, Bool.false_eq_true, if_false] at h
        split at h
        · exact absurd h (by decide)
        · split at h
          · exact absurd h (by decide)
          · exact absurd h (by decide)
      · exact ⟨rfl, rfl⟩
    · exact absurd (newGrid_of_ignites hig ▸ h) (by decide)
  · intro ⟨hig, hash⟩
    simp [newGrid, hig, hash]

lemma newIdsGrid_of_ignites {n : Nat} {r : Rand n} {s : FFState n} {c : Cell n}
    (h : ignites r s c = true) : newIdsGrid r s c = newClusterIds r s c := by
  have hash : activeAsh r s c = false := activeAsh_of_grid_one (grid_of_ignites h)
  simp [newIdsGrid, hash, h]

lemma newIdsGrid_of_activeAsh {n : Nat} {r : Rand n} {s : FFState n} {c : Cell n}
    (h : activeAsh r s c = true) : newIdsGrid r s c = ashIds s c := by
  simp [newIdsGrid, h]

lemma newIdsGrid_of_neither {n : Nat} {r : Rand n} {s : FFState n} {c : Cell n}
    (h1 : ignites r s c = false) (h2 : activeAsh r s c = false) :
    newIdsGrid r s c = 0 := by
  simp [newIdsGrid, h1, h2]

/-! ### Burning neighbors and the maximum id among them -/

lemma consBurning_mem {n : Nat} {g ids : Cell n → Nat} {o : Option (Cell n)}
    {acc : List Nat} {x : Nat} (h : x ∈ consBurning g ids o acc) :
    (∃ d, g d = 2 ∧ ids d = x) ∨ x ∈ acc := by
  cases o with
  | none => exact Or.inr h
  | some d =>
    by_cases hb : g d = 2
    · simp only [consBurning, hb, beq_self_eq_true, if_true] at h
      rcases List.mem_cons.mp h with h | h
      · exact Or.inl ⟨d, hb, h.symm⟩
      · exact Or.inr h
    · simpa only [consBurning, beq_iff_eq, hb, if_false] using Or.inr h

lemma mem_burningNbrIds {n : Nat} {g ids : Cell n → Nat} {c : Cell n} {x : Nat}
    (h : x ∈ burningNbrIds g ids c) : ∃ d, g d = 2 ∧ ids d = x := by
  unfold burningNbrIds at h
  rcases consBurning_mem h with h | h
  · exact h
  rcases consBurning_mem h with h | h
  · exact h
  rcases consBurning_mem h with h | h
  · exact h
  rcases consBurning_mem h with h | h
  · exact h
  · exact absurd h (List.not_mem_nil x)

lemma consBurning_ne_nil_of_burns {n : Nat} {g ids : Cell n → Nat}
    {o : Option (Cell n)} (h : burnsAt g o = true) (acc : List Nat) :
    consBurning g ids o acc ≠ [] := by
  cases o with
  | none => exact absurd h (by simp [burnsAt])
  | some d =>
    simp only [burnsAt] at h
    simp [consBurning, h]

lemma consBurning_ne_nil_of_acc {n : Nat} {g ids : Cell n → Nat}
    {o : Option (Cell n)} {acc : List Nat} (h : acc ≠ []) :
    consBurning g ids o acc ≠ [] := by
  cases o with
  | none => exact h
  | some d =>
    simp only [consBurning]
    split
    · exact List.cons_ne_nil _ _
    · exact h

lemma burningNbrIds_ne_nil {n : Nat} {g ids : Cell n → Nat} {c : Cell n}
    (h : fireNeighbors g c = true) : burningNbrIds g ids c ≠ [] := by
  unfold burningNbrIds
  simp only [fireNeighbors, Bool.or_eq_true] at h
  rcases h with ((h | h) | h) | h
  · exact consBurning_ne_nil_of_burns h _
  · exact consBurning_ne_nil_of_acc (consBurning_ne_nil_of_burns h _)
  · exact consBurning_ne_nil_of_acc
      (consBurning_ne_nil_of_acc (consBurning_ne_nil_of_burns h _))
  · exact consBurning_ne_nil_of_acc (consBurning_ne_nil_of_acc
      (consBurning_ne_nil_of_acc (consBurning_ne_nil_of_burns h [])))

lemma foldr_max_mem : ∀ {l : List Nat}, l ≠ [] → l.foldr max 0 ∈ l := by
  intro l
  induction l with
  | nil => intro h; exact absurd rfl h
  | cons x t ih =>
    intro _
    cases t with
    | nil => simp
    | cons y u =>
      rcases le_total x ((y :: u).foldr max 0) with h | h
      · rw [List.foldr_cons, max_eq_right h]
        exact List.mem_cons_of_mem _ (ih (by simp))
      · rw [List.foldr_cons, max_eq_left h]
        exact List.mem_cons_self _ _

lemma le_foldr_max {x : Nat} : ∀ {l : List Nat}, x ∈ l → x ≤ l.foldr max 0 := by
  intro l
  induction l with
  | nil => intro h; exact absurd h (List.not_mem_nil x)
  | cons y t ih =>
    intro h
    rcases List.mem_cons.mp h with h | h
    · rw [List.foldr_cons, h]; exact le_max_left _ _
    · exact le_trans (ih h) (le_max_right _ _)

lemma foldr_max_lt {b : Nat} : ∀ {l : List Nat}, (∀ x ∈ l, x < b) → 0 < b →
    l.foldr max 0 < b := by
  intro l
  induction l with
  | nil => intro _ hb; exact hb
  | cons y t ih =>
    intro h hb
    rw [List.foldr_cons]
    exact max_lt (h y (List.mem_cons_self _ _)) (ih (fun x hx => h x (List.mem_cons_of_mem _ hx)) hb)

/-! ### Lightning ids -/

lemma mem_lightningCells {n : Nat} {r : Rand n} {s : FFState n} {c : Cell n} :
    c ∈ lightningCells r s ↔ lightningNew r s c = true := by
  simp [lightningCells]

lemma lightningRank_lt_numNewFires {n : Nat} {r : Rand n} {s : FFState n}
    {c : Cell n} (h : lightningNew r s c = true) :
    lightningRank r s c < numNewFires r s := by
  apply Finset.card_lt_card
  constructor
  · exact Finset.filter_subset _ _
  · intro hsub
    have hc : c ∈ lightningCells r s := mem_lightningCells.mpr h
    have := hsub hc
    simp only [Finset.mem_filter] at this
    omega

/-! ### The reachability invariant: positive ids sit exactly on burning
and ash cells, and every id on the grid is below the global counter. -/

def Inv {n : Nat} (s : FFState n) : Prop :=
  1 ≤ s.next_cluster_id ∧ (∀ c, s.fire_cluster_ids c < s.next_cluster_id) ∧
    ∀ c, 0 < s.fire_cluster_ids c ↔ (s.grid c = 2 ∨ s.grid c = 3)

lemma inv_mk {n : Nat} (pt pf : Rat) (m : Cell n → Bool) :
    Inv (mkForestFireModel n pt pf m) := by
  refine ⟨le_refl 1, fun c => Nat.zero_lt_one, fun c => ?_⟩
  simp only [mkForestFireModel]
  constructor
  · intro h; exact absurd h (by omega)
  · intro h
    split at h <;> omega

lemma newClusterIds_pos {n : Nat} {r : Rand n} {s : FFState n} {c : Cell n}
    (hinv : Inv s) (hig : ignites r s c = true) : 0 < newClusterIds r s c := by
  have h1 := hinv.1
  unfold newClusterIds
  cases hfn : fireNeighbors s.grid c
  · have hl : lightningNew r s c = true := by simp [lightningNew, hig, hfn]
    have hp : propagated r s c = false := by simp [propagated, hfn]
    rw [hp]
    simp only [Bool.false_eq_true, if_false, hl, if_true]
    omega
  · have hp : propagated r s c = true := by simp [propagated, hig, hfn]
    rw [hp]
    simp only [if_true]
    have hne := @burningNbrIds_ne_nil _ s.grid s.fire_cluster_ids c hfn
    obtain ⟨d, hd2, hdx⟩ := mem_burningNbrIds (foldr_max_mem hne)
    have : 0 < s.fire_cluster_ids d := (hinv.2.2 d).mpr (Or.inl hd2)
    calc 0 < s.fire_cluster_ids d := this
      _ ≤ _ := hdx ▸ le_foldr_max (foldr_max_mem hne)

lemma newClusterIds_lt {n : Nat} {r : Rand n} {s : FFState n} {c : Cell n}
    (hinv : Inv s) :
    newClusterIds r s c < s.next_cluster_id + numNewFires r s := by
  obtain ⟨h1, h2, _⟩ := hinv
  unfold newClusterIds
  split
  · apply foldr_max_lt
    · intro x hx
      obtain ⟨d, _, hdx⟩ := mem_burningNbrIds hx
      calc x = s.fire_cluster_ids d := hdx.symm
        _ < s.next_cluster_id := h2 d
        _ ≤ _ := Nat.le_add_right _ _
    · omega
  · split
    · exact Nat.add_lt_add_left (lightningRank_lt_numNewFires (by assumption)) _
    · omega

lemma inv_step {n : Nat} {s : FFState n} (hinv : Inv s) (r : Rand n) :
    Inv (s.step r) := by
  obtain ⟨h1, h2, h3⟩ := hinv
  refine ⟨?_, ?_, ?_⟩
  · rw [step_next]; omega
  · intro c
    rw [step_next, step_ids]
    cases hash : activeAsh r s c
    · cases hig : ignites r s c
      · rw [newIdsGrid_of_neither hig hash]; omega
      · rw [newIdsGrid_of_ignites hig]
        exact newClusterIds_lt ⟨h1, h2, h3⟩
    · rw [newIdsGrid_of_activeAsh hash]
      rcases ashIds_cases s c with h | h
      · rw [h]; have := h2 c; omega
      · rw [h]; omega
  · intro c
    rw [step_ids, step_grid]
    cases hash : activeAsh r s c
    · cases hig : ignites r s c
      · rw [newIdsGrid_of_neither hig hash]
        constructor
        · omega
        · intro h
          rcases h with h | h
          · exact absurd (newGrid_eq_two_iff.mp h) (by simp [hig])
          · exact absurd (newGrid_eq_three_iff.mp h).2 (by simp [hash])
      · rw [newIdsGrid_of_ignites hig]
        constructor
        · intro _; exact Or.inl (newGrid_of_ignites hig)
        · intro _; exact newClusterIds_pos ⟨h1, h2, h3⟩ hig
    · have hpos : 0 < ashIds s c := (activeAsh_iff.mp hash).2
      rw [newIdsGrid_of_activeAsh hash]
      constructor
      · intro _
        cases hig : ignites r s c
        · exact Or.inr (newGrid_eq_three_iff.mpr ⟨hig, hash⟩)
        · exact Or.inl (newGrid_of_ignites hig)
      · intro _; exact hpos

lemma reachable_inv {n : Nat} {s : FFState n} (h : Reachable s) : Inv s := by
  induction h with
  | init pt pf m => exact inv_mk pt pf m
  | next r s _ ih => exact inv_step ih r

/-! ### Concrete states and runs used to instantiate the theorems -/

/-- Initial tree oracle of a 2 x 2 run: trees at (0,0) and (0,1). -/
def treesTwo : Cell 2 → Bool := fun c =>
  decide (c = ((0 : Fin 2), (0 : Fin 2)) ∨ c = ((0 : Fin 2), (1 : Fin 2)))

/-- Step-1 randomness of the 2 x 2 run: lightning strikes (0,0) only. -/
def randBolt : Rand 2 := ⟨fun _ => false, fun c => decide (c = ((0 : Fin 2), (0 : Fin 2)))⟩

/-- All draws fail (no growth, no lightning), on the 2 x 2 grid. -/
def randOff2 : Rand 2 := ⟨fun _ => false, fun _ => false⟩

/-- The freshly constructed 2 x 2 simulator of the small run. -/
def runTwo0 : FFState 2 := mkForestFireModel 2 0 0 treesTwo

/-- The small run after one step: (0,0) burns with cluster id 1. -/
def runTwo1 : FFState 2 := runTwo0.step randBolt

/-- The small run after two steps: (0,1) burns with id 1, (0,0) is ash
with id 1, so two cells carry id 1 while only one is burning. -/
def runTwo2 : FFState 2 := runTwo1.step randOff2

lemma reachable_runTwo1 : Reachable runTwo1 :=
  Reachable.next randBolt runTwo0 (Reachable.init 0 0 treesTwo)

/-- A hand-built one-cell state holding a single burning cell with
cluster id 5 and an otherwise empty bookkeeping state. -/
def oneBurn : FFState 1 where
  p_tree := 0
  p_fire := 0
  grid := fun _ => 2
  fire_cluster_ids := fun _ => 5
  next_cluster_id := 6
  step_count := 0
  window_size := 6000
  active_fire_history := []
  cluster_registry := []
  current_clusters := []

/-- All draws fail, on the 1 x 1 grid. -/
def randOff1 : Rand 1 := ⟨fun _ => false, fun _ => false⟩

/-! ### Claim C1 -/

/-- C1: in every reachable state of the simulator (from construction on,
after any number of steps), a cell holds a positive cluster id exactly
when its grid state is BURNING (2) or ASH (3); on every other cell the
cluster-id grid is 0. -/
theorem c1_state_id_coupling {n : Nat} (s : FFState n) (h : Reachable s)
    (c : Cell n) :
    0 < s.fire_cluster_ids c ↔ (s.grid c = 2 ∨ s.grid c = 3) :=
  (reachable_inv h).2.2 c

/-- C1, instantiated: the coupling holds at cell (0,0) of the small run
after one step, where the cell is burning with id 1. -/
theorem c1_witness :
    0 < runTwo1.fire_cluster_ids ((0 : Fin 2), (0 : Fin 2)) ↔
      (runTwo1.grid ((0 : Fin 2), (0 : Fin 2)) = 2 ∨
        runTwo1.grid ((0 : Fin 2), (0 : Fin 2)) = 3) :=
  c1_state_id_coupling runTwo1 reachable_runTwo1 _

/-! ### Claim C2 -/

/-- C2: if after a step a cluster id has zero burning cells in the
resulting grid, then every cell that carried that id into the step (as a
burning or ash cell) comes out of the step EMPTY with id 0 — no cell
retains the id of a dead cluster as ash. -/
theorem c2_ash_clearing {n : Nat} (s : FFState n) (r : Rand n) (cid : Nat)
    (hpos : 0 < cid)
    (hdead : ∀ c, ¬((s.step r).grid c = 2 ∧ (s.step r).fire_cluster_ids c = cid))
    (c : Cell n) (hc : s.fire_cluster_ids c = cid)
    (hburn : s.grid c = 2 ∨ s.grid c = 3) :
    (s.step r).grid c = 0 ∧ (s.step r).fire_cluster_ids c = 0 := by
  have hne1 : s.grid c ≠ 1 := by rcases hburn with h | h <;> simp [h]
  have hig : ignites r s c = false := ignites_of_grid_ne hne1
  have hash : activeAsh r s c = false := by
    cases hval : activeAsh r s c
    · rfl
    · exfalso
      obtain ⟨hmem, _⟩ := activeAsh_iff.mp hval
      rw [ashIds_of_burning hburn, hc] at hmem
      obtain ⟨c2, hig2, hid2⟩ := mem_activeIdsF.mp hmem
      exact hdead c2 ⟨by rw [step_grid]; exact newGrid_of_ignites hig2,
        by rw [step_ids, newIdsGrid_of_ignites hig2]; exact hid2⟩
  constructor
  · rw [step_grid]
    have h0 : s.grid c ≠ 0 := by rcases hburn with h | h <;> simp [h]
    simp [newGrid, hig, hash, h0, hne1]
  · rw [step_ids]; exact newIdsGrid_of_neither hig hash

/-- C2, instantiated: a lone burning cell with id 5 and no neighbor to
spread to dies out; after the step its cell is EMPTY with id 0. -/
theorem c2_witness :
    (oneBurn.step randOff1).grid ((0 : Fin 1), (0 : Fin 1)) = 0 ∧
      (oneBurn.step randOff1).fire_cluster_ids ((0 : Fin 1), (0 : Fin 1)) = 0 :=
  c2_ash_clearing oneBurn randOff1 5 (by decide) (by decide)
    ((0 : Fin 1), (0 : Fin 1)) (by decide) (by decide)

/-! ### Dictionaries as association lists: lookup and update -/

lemma lookup_cons_self {v : ClusterInfo} (k : Nat) (t : List (Nat × ClusterInfo)) :
    List.lookup k ((k, v) :: t) = some v := by
  simp [List.lookup]

lemma lookup_cons_ne {v : ClusterInfo} {k cid : Nat} (t : List (Nat × ClusterInfo))
    (h : cid ≠ k) : List.lookup cid ((k, v) :: t) = List.lookup cid t := by
  have hb : (cid == k) = false := beq_eq_false_iff_ne.mpr h
  simp [List.lookup, hb]

lemma lookup_setEntry_self (cid : Nat) (e : ClusterInfo) (l : List (Nat × ClusterInfo)) :
    List.lookup cid (setEntry cid e l) = some e := by
  induction l with
  | nil => simp [setEntry, List.lookup]
  | cons p t ih =>
    obtain ⟨k, v⟩ := p
    by_cases hk : k = cid
    · subst hk; simp [setEntry, lookup_cons_self]
    · rw [setEntry, if_neg hk, lookup_cons_ne _ (fun h => hk h.symm)]
      exact ih

lemma lookup_setEntry_ne {cid cid' : Nat} (e : ClusterInfo)
    (l : List (Nat × ClusterInfo)) (h : cid' ≠ cid) :
    List.lookup cid' (setEntry cid e l) = List.lookup cid' l := by
  induction l with
  | nil =>
    have hb : (cid' == cid) = false := beq_eq_false_iff_ne.mpr h
    simp [setEntry, List.lookup, hb]
  | cons p t ih =>
    obtain ⟨k, v⟩ := p
    by_cases hk : k = cid
    · subst hk
      rw [setEntry, if_pos rfl, lookup_cons_ne _ h, lookup_cons_ne _ h]
    · rw [setEntry, if_neg hk]
      by_cases hk' : cid' = k
      · subst hk'; rw [lookup_cons_self, lookup_cons_self]
      · rw [lookup_cons_ne _ hk', lookup_cons_ne _ hk']
        exact ih

lemma mem_setEntry {p : Nat × ClusterInfo} {cid : Nat} {e : ClusterInfo} :
    ∀ {l : List (Nat × ClusterInfo)}, p ∈ setEntry cid e l → p ∈ l ∨ p = (cid, e) := by
  intro l
  induction l with
  | nil => intro h; simp [setEntry] at h; exact Or.inr h
  | cons q t ih =>
    obtain ⟨k, v⟩ := q
    intro h
    by_cases hk : k = cid
    · subst hk
      rw [setEntry, if_pos rfl] at h
      rcases List.mem_cons.mp h with h | h
      · exact Or.inr h
      · exact Or.inl (List.mem_cons_of_mem _ h)
    · rw [setEntry, if_neg hk] at h
      rcases List.mem_cons.mp h with h | h
      · exact Or.inl (h ▸ List.mem_cons_self _ _)
      · rcases ih h with h | h
        · exact Or.inl (List.mem_cons_of_mem _ h)
        · exact Or.inr h

lemma keys_setEntry_mem {x cid : Nat} {e : ClusterInfo}
    {l : List (Nat × ClusterInfo)} (h : x ∈ (setEntry cid e l).map Prod.fst) :
    x ∈ l.map Prod.fst ∨ x = cid := by
  obtain ⟨p, hp, hx⟩ := List.mem_map.mp h
  rcases mem_setEntry hp with h2 | h2
  · exact Or.inl (hx ▸ List.mem_map_of_mem Prod.fst h2)
  · subst h2; exact Or.inr hx.symm

lemma keys_setEntry_nodup (cid : Nat) (e : ClusterInfo) :
    ∀ {l : List (Nat × ClusterInfo)}, (l.map Prod.fst).Nodup →
      ((setEntry cid e l).map Prod.fst).Nodup := by
  intro l
  induction l with
  | nil => intro _; simp [setEntry]
  | cons q t ih =>
    obtain ⟨k, v⟩ := q
    intro h
    rw [List.map_cons, List.nodup_cons] at h
    by_cases hk : k = cid
    · subst hk
      rw [setEntry, if_pos rfl, List.map_cons, List.nodup_cons]
      exact h
    · rw [setEntry, if_neg hk, List.map_cons, List.nodup_cons]
      refine ⟨fun hmem => ?_, ih h.2⟩
      rcases keys_setEntry_mem hmem with h2 | h2
      · exact h.1 h2
      · exact hk h2

lemma lookup_mem {l : List (Nat × ClusterInfo)} {cid : Nat} {e : ClusterInfo}
    (h : List.lookup cid l = some e) : (cid, e) ∈ l := by
  induction l with
  | nil => exact absurd h (by simp [List.lookup])
  | cons q t ih =>
    obtain ⟨k, v⟩ := q
    by_cases hk : cid = k
    · subst hk
      rw [lookup_cons_self] at h
      exact (Option.some.injEq _ _ ▸ h) ▸ List.mem_cons_self _ _
    · rw [lookup_cons_ne _ hk] at h
      exact List.mem_cons_of_mem _ (ih h)

lemma lookup_of_mem_nodup {cid : Nat} {e : ClusterInfo} :
    ∀ {l : List (Nat × ClusterInfo)}, (l.map Prod.fst).Nodup →
      (cid, e) ∈ l → List.lookup cid l = some e := by
  intro l
  induction l with
  | nil => intro _ h; exact absurd h (List.not_mem_nil _)
  | cons q t ih =>
    obtain ⟨k, v⟩ := q
    intro hnd hmem
    rw [List.map_cons, List.nodup_cons] at hnd
    rcases List.mem_cons.mp hmem with h | h
    · injection h with h1 h2
      subst h1; subst h2
      exact lookup_cons_self _ _
    · by_cases hk : cid = k
      · subst hk
        exact absurd (List.mem_map_of_mem Prod.fst h) hnd.1
      · rw [lookup_cons_ne _ hk]
        exact ih hnd.2 h

/-! ### The per-step registry write, threaded through the update loops -/

/-- The registry value written for an id that is active in a step: a
fresh entry on first sight (birth = current step, unset death), else the
old entry with the new (step, size) sample appended and max_size raised
to the new size if larger. -/
def updatedEntry (stepc W size : Nat) : Option ClusterInfo → ClusterInfo
  | none => { birth := stepc, death := none, max_size := size,
              sizes := evictAppend W [] (stepc, size) }
  | some e => { birth := e.birth, death := e.death,
                max_size := max e.max_size size,
                sizes := evictAppend W e.sizes (stepc, size) }

lemma lookup_updateOne_self {n : Nat} (stepc W : Nat) (ids : Cell n → Nat)
    (reg : List (Nat × ClusterInfo)) (cid : Nat) :
    List.lookup cid (updateOne stepc W ids reg cid) =
      some (updatedEntry stepc W (clusterSize ids cid) (List.lookup cid reg)) := by
  unfold updateOne
  cases h : List.lookup cid reg <;>
    simp [h, updatedEntry, lookup_setEntry_self]

lemma lookup_updateOne_ne {n : Nat} {stepc W : Nat} {ids : Cell n → Nat}
    {reg : List (Nat × ClusterInfo)} {cid cid' : Nat} (h : cid' ≠ cid) :
    List.lookup cid' (updateOne stepc W ids reg cid) = List.lookup cid' reg := by
  unfold updateOne
  cases List.lookup cid reg <;> exact lookup_setEntry_ne _ _ h

lemma keys_updateOne_nodup {n : Nat} {stepc W : Nat} {ids : Cell n → Nat}
    {reg : List (Nat × ClusterInfo)} {cid : Nat}
    (h : (reg.map Prod.fst).Nodup) :
    ((updateOne stepc W ids reg cid).map Prod.fst).Nodup := by
  unfold updateOne
  cases List.lookup cid reg <;> exact keys_setEntry_nodup _ _ h

lemma regUpdate_nil {n : Nat} (stepc W : Nat) (ids : Cell n → Nat)
    (reg : List (Nat × ClusterInfo)) : regUpdate stepc W ids [] reg = reg := rfl

lemma regUpdate_cons {n : Nat} (stepc W : Nat) (ids : Cell n → Nat)
    (a : Nat) (t : List Nat) (reg : List (Nat × ClusterInfo)) :
    regUpdate stepc W ids (a :: t) reg =
      regUpdate stepc W ids t (updateOne stepc W ids reg a) := rfl

lemma lookup_regUpdate_notmem {n : Nat} {stepc W : Nat} {ids : Cell n → Nat}
    {cid : Nat} : ∀ {L : List Nat} (reg), cid ∉ L →
      List.lookup cid (regUpdate stepc W ids L reg) = List.lookup cid reg := by
  intro L
  induction L with
  | nil => intro reg _; rfl
  | cons a t ih =>
    intro reg h
    rw [regUpdate_cons, ih _ (fun hm => h (List.mem_cons_of_mem _ hm))]
    exact lookup_updateOne_ne (fun he => h (he ▸ List.mem_cons_self _ _))

lemma lookup_regUpdate_mem {n : Nat} {stepc W : Nat} {ids : Cell n → Nat}
    {cid : Nat} : ∀ {L : List Nat} (reg), L.Nodup → cid ∈ L →
      List.lookup cid (regUpdate stepc W ids L reg) =
        some (updatedEntry stepc W (clusterSize ids cid) (List.lookup cid reg)) := by
  intro L
  induction L with
  | nil => intro reg _ h; exact absurd h (List.not_mem_nil _)
  | cons a t ih =>
    intro reg hnd hmem
    rw [List.nodup_cons] at hnd
    rw [regUpdate_cons]
    rcases List.mem_cons.mp hmem with h | h
    · subst h
      rw [lookup_regUpdate_notmem _ hnd.1]
      exact lookup_updateOne_self _ _ _ _ _
    · have hne : cid ≠ a := fun he => hnd.1 (he ▸ h)
      rw [ih _ hnd.2 h, lookup_updateOne_ne hne]

lemma keys_regUpdate_nodup {n : Nat} {stepc W : Nat} {ids : Cell n → Nat} :
    ∀ {L : List Nat} {reg}, (reg.map Prod.fst).Nodup →
      ((regUpdate stepc W ids L reg).map Prod.fst).Nodup := by
  intro L
  induction L with
  | nil => intro reg h; exact h
  | cons a t ih =>
    intro reg h
    rw [regUpdate_cons]
    exact ih (keys_updateOne_nodup h)

lemma markDeath_eq_of_none {stepc cid : Nat} {reg : List (Nat × ClusterInfo)}
    (h : List.lookup cid reg = none) : markDeath stepc reg cid = reg := by
  simp only [markDeath, h]

lemma markDeath_eq_of_unset {stepc cid : Nat} {reg : List (Nat × ClusterInfo)}
    {e : ClusterInfo} (h : List.lookup cid reg = some e) (hd : e.death = none) :
    markDeath stepc reg cid = setEntry cid { e with death := some stepc } reg := by
  simp only [markDeath, h]
  rw [if_pos hd]

lemma markDeath_eq_of_set {stepc cid : Nat} {reg : List (Nat × ClusterInfo)}
    {e : ClusterInfo} (h : List.lookup cid reg = some e) (hd : e.death ≠ none) :
    markDeath stepc reg cid = reg := by
  simp only [markDeath, h]
  rw [if_neg hd]

lemma lookup_markDeath_ne {stepc : Nat} {reg : List (Nat × ClusterInfo)}
    {cid cid' : Nat} (h : cid' ≠ cid) :
    List.lookup cid' (markDeath stepc reg cid) = List.lookup cid' reg := by
  cases hl : List.lookup cid reg with
  | none => rw [markDeath_eq_of_none hl]
  | some e =>
    by_cases hd : e.death = none
    · rw [markDeath_eq_of_unset hl hd]
      exact lookup_setEntry_ne _ _ h
    · rw [markDeath_eq_of_set hl hd]

lemma lookup_markDeaths_notmem {stepc : Nat} {cid : Nat} :
    ∀ {dl : List Nat} (reg), cid ∉ dl →
      List.lookup cid (markDeaths stepc reg dl) = List.lookup cid reg := by
  intro dl
  induction dl with
  | nil => intro reg _; rfl
  | cons a t ih =>
    intro reg h
    have : markDeaths stepc reg (a :: t) = markDeaths stepc (markDeath stepc reg a) t := rfl
    rw [this, ih _ (fun hm => h (List.mem_cons_of_mem _ hm))]
    exact lookup_markDeath_ne (fun he => h (he ▸ List.mem_cons_self _ _))

lemma keys_markDeath_nodup {stepc : Nat} {reg : List (Nat × ClusterInfo)}
    {cid : Nat} (h : (reg.map Prod.fst).Nodup) :
    ((markDeath stepc reg cid).map Prod.fst).Nodup := by
  cases hl : List.lookup cid reg with
  | none => rw [markDeath_eq_of_none hl]; exact h
  | some e =>
    by_cases hd : e.death = none
    · rw [markDeath_eq_of_unset hl hd]
      exact keys_setEntry_nodup _ _ h
    · rw [markDeath_eq_of_set hl hd]; exact h

lemma keys_markDeaths_nodup {stepc : Nat} :
    ∀ {dl : List Nat} {reg}, (reg.map Prod.fst).Nodup →
      ((markDeaths stepc reg dl).map Prod.fst).Nodup := by
  intro dl
  induction dl with
  | nil => intro reg h; exact h
  | cons a t ih =>
    intro reg h
    exact ih (keys_markDeath_nodup h)

/-- Walking the death-marking loop: an entry already present keeps its
birth, max_size and sizes, and a death that is already set is never
overwritten. -/
lemma markDeaths_preserves {stepc : Nat} {cid : Nat} :
    ∀ {dl : List Nat} (reg) (e : ClusterInfo), List.lookup cid reg = some e →
      ∃ e2, List.lookup cid (markDeaths stepc reg dl) = some e2 ∧
        e2.birth = e.birth ∧ e2.max_size = e.max_size ∧ e2.sizes = e.sizes ∧
        ∀ d, e.death = some d → e2.death = some d := by
  intro dl
  induction dl with
  | nil => intro reg e h; exact ⟨e, h, rfl, rfl, rfl, fun d hd => hd⟩
  | cons a t ih =>
    intro reg e h
    have hstep : markDeaths stepc reg (a :: t) = markDeaths stepc (markDeath stepc reg a) t := rfl
    rw [hstep]
    by_cases ha : cid = a
    · subst ha
      by_cases hd : e.death = none
      · rw [markDeath_eq_of_unset h hd]
        obtain ⟨e2, h2, hb, hm, hs, hdd⟩ :=
          ih (setEntry cid { e with death := some stepc } reg)
            { e with death := some stepc } (lookup_setEntry_self _ _ _)
        refine ⟨e2, h2, hb, hm, hs, fun d hdead => ?_⟩
        rw [hd] at hdead
        exact absurd hdead (by simp)
      · rw [markDeath_eq_of_set h hd]
        exact ih reg e h
    · have : List.lookup cid (markDeath stepc reg a) = some e := by
        rw [lookup_markDeath_ne ha]; exact h
      exact ih _ _ this

lemma mem_pruneReg {stepc W : Nat} {reg : List (Nat × ClusterInfo)}
    {p : Nat × ClusterInfo} (h : p ∈ pruneReg stepc W reg) :
    p ∈ reg := (List.mem_filter.mp h).1

lemma pruneReg_death_le {stepc W : Nat} {reg : List (Nat × ClusterInfo)}
    {cid : Nat} {e : ClusterInfo} {d : Nat}
    (h : List.lookup cid (pruneReg stepc W reg) = some e)
    (hd : e.death = some d) : stepc - d ≤ W := by
  have hm := lookup_mem h
  have hp := (List.mem_filter.mp hm).2
  rw [hd] at hp
  simpa using hp

lemma keys_pruneReg_nodup {stepc W : Nat} {reg : List (Nat × ClusterInfo)}
    (h : (reg.map Prod.fst).Nodup) :
    ((pruneReg stepc W reg).map Prod.fst).Nodup :=
  ((List.filter_sublist reg).map Prod.fst).nodup h

lemma lookup_pruneReg_of_nodup {stepc W : Nat} {reg : List (Nat × ClusterInfo)}
    {cid : Nat} {e : ClusterInfo} (hnd : (reg.map Prod.fst).Nodup)
    (h : List.lookup cid (pruneReg stepc W reg) = some e) :
    List.lookup cid reg = some e :=
  lookup_of_mem_nodup hnd (mem_pruneReg (lookup_mem h))

lemma activeList_nodup {n : Nat} (r : Rand n) (s : FFState n) :
    (activeList r s).Nodup := by
  unfold activeList
  have h1 := List.nodup_dedup
    (((allCells n).filter fun c => newGrid r s c == 2).map (newIdsGrid r s))
  have h2 := List.Nodup.filter (fun x => x != 0) h1
  exact ((List.perm_insertionSort _ _).nodup_iff).mpr h2

lemma notmem_died_of_active {n : Nat} {r : Rand n} {s : FFState n} {cid : Nat}
    (h : cid ∈ activeList r s) :
    cid ∉ (s.current_clusters.map Prod.fst).filter fun x =>
      decide (x ∉ activeList r s) := by
  intro hd
  exact of_decide_eq_true (List.mem_filter.mp hd).2 h

/-- Where an active id ends up in the post-step registry, provided its
entry survives the pruning: exactly the updatedEntry write. -/
lemma lookup_step_registry_active {n : Nat} {s : FFState n} {r : Rand n}
    {cid : Nat} {e2 : ClusterInfo}
    (hnd : (s.cluster_registry.map Prod.fst).Nodup)
    (hact : cid ∈ activeList r s)
    (h2 : List.lookup cid (s.step r).cluster_registry = some e2) :
    e2 = updatedEntry (s.step_count + 1) s.window_size
      (clusterSize (newIdsGrid r s) cid) (List.lookup cid s.cluster_registry) := by
  rw [step_registry] at h2
  have hnd1 : ((regUpdate (s.step_count + 1) s.window_size (newIdsGrid r s)
      (activeList r s) s.cluster_registry).map Prod.fst).Nodup :=
    keys_regUpdate_nodup hnd
  have hnd2 := @keys_markDeaths_nodup (s.step_count + 1)
    ((s.current_clusters.map Prod.fst).filter fun cid =>
      decide (cid ∉ activeList r s)) _ hnd1
  have h3 := lookup_pruneReg_of_nodup hnd2 h2
  rw [lookup_markDeaths_notmem _ (notmem_died_of_active hact)] at h3
  rw [lookup_regUpdate_mem _ (activeList_nodup r s) hact] at h3
  exact (Option.some_inj.mp h3).symm

/-! ### Claim C6 -/

/-- C6: after every completed step, no registry entry whose death is set
lies further than window_size steps in the past; an entry with
step_count - death > window_size has been removed by the pruning phase
of that same step. -/
theorem c6_registry_pruning {n : Nat} (s : FFState n) (r : Rand n)
    (p : Nat × ClusterInfo) (d : Nat)
    (h1 : p ∈ (s.step r).cluster_registry) (h2 : (p.2).death = some d) :
    (s.step r).step_count - d ≤ (s.step r).window_size := by
  rw [step_registry] at h1
  rw [step_stepCount, step_window]
  have hp := (List.mem_filter.mp h1).2
  rw [h2] at hp
  simpa using hp

/-- A hand-built quiet state whose registry holds one long-dead entry,
used to instantiate the pruning theorem. -/
def deadReg : FFState 1 where
  p_tree := 0
  p_fire := 0
  grid := fun _ => 0
  fire_cluster_ids := fun _ => 0
  next_cluster_id := 2
  step_count := 9
  window_size := 6000
  active_fire_history := []
  cluster_registry := [(1, ⟨3, some 4, 2, [(3, 2)]⟩)]
  current_clusters := []

/-- C6, instantiated on the quiet state deadReg: its entry died at step
4, and after the next step (step 10) the recorded death is 6 steps old,
within the window. -/
theorem c6_witness :
    (deadReg.step randOff1).step_count - 4 ≤ (deadReg.step randOff1).window_size :=
  c6_registry_pruning deadReg randOff1 (1, ⟨3, some 4, 2, [(3, 2)]⟩) 4
    (by decide) rfl

/-! ### Claim C10 -/

/-- C10: registry fields are write-once where the claim says so — if an
entry for an id exists both before and after a step, the step does not
change its birth, and a death that was already set is not overwritten. -/
theorem c10_birth_death_write_once {n : Nat} (s : FFState n) (r : Rand n)
    (cid : Nat) (e e2 : ClusterInfo)
    (hnd : (s.cluster_registry.map Prod.fst).Nodup)
    (h1 : List.lookup cid s.cluster_registry = some e)
    (h2 : List.lookup cid (s.step r).cluster_registry = some e2) :
    e2.birth = e.birth ∧ ∀ d, e.death = some d → e2.death = some d := by
  by_cases hact : cid ∈ activeList r s
  · have he2 := lookup_step_registry_active hnd hact h2
    rw [h1] at he2
    rw [he2]
    exact ⟨rfl, fun d hd => hd ▸ rfl⟩
  · rw [step_registry] at h2
    have hnd1 : ((regUpdate (s.step_count + 1) s.window_size (newIdsGrid r s)
        (activeList r s) s.cluster_registry).map Prod.fst).Nodup :=
      keys_regUpdate_nodup hnd
    have hnd2 := @keys_markDeaths_nodup (s.step_count + 1)
      ((s.current_clusters.map Prod.fst).filter fun cid =>
        decide (cid ∉ activeList r s)) _ hnd1
    have h3 := lookup_pruneReg_of_nodup hnd2 h2
    have h4 : List.lookup cid (regUpdate (s.step_count + 1) s.window_size
        (newIdsGrid r s) (activeList r s) s.cluster_registry) = some e := by
      rw [lookup_regUpdate_notmem _ hact]; exact h1
    obtain ⟨e3, h5, hb, _, _, hdd⟩ := @markDeaths_preserves (s.step_count + 1) cid
      ((s.current_clusters.map Prod.fst).filter fun cid =>
        decide (cid ∉ activeList r s)) _ e h4
    rw [h5] at h3
    have : e3 = e2 := Option.some_inj.mp h3
    subst this
    exact ⟨hb, hdd⟩

/-- C10, instantiated on the quiet state deadReg: the dead entry for id
1 keeps birth 3 and death 4 across the next step. -/
theorem c10_witness :
    (⟨3, some 4, 2, [(3, 2)]⟩ : ClusterInfo).birth = 3 ∧
      (⟨3, some 4, 2, [(3, 2)]⟩ : ClusterInfo).death = some 4 ∧
      List.lookup 1 (deadReg.step randOff1).cluster_registry =
        some ⟨3, some 4, 2, [(3, 2)]⟩ :=
  ⟨(c10_birth_death_write_once deadReg randOff1 1 ⟨3, some 4, 2, [(3, 2)]⟩
      ⟨3, some 4, 2, [(3, 2)]⟩ (by decide) (by decide) (by decide)).1,
    (c10_birth_death_write_once deadReg randOff1 1 ⟨3, some 4, 2, [(3, 2)]⟩
      ⟨3, some 4, 2, [(3, 2)]⟩ (by decide) (by decide) (by decide)).2 4 rfl,
    by decide⟩

/-! ### Claim C3 -/

/-- C3 fails on the code: in the small 2 x 2 run, after step 2 cluster 1
has exactly one BURNING cell, yet the registry records the size sample
(2, 2) for step 2 and max_size 2, because the source counts every cell
of the cluster-id grid carrying the id — the ash cell included. -/
theorem c3_counterexample :
    (Finset.univ.filter fun c : Cell 2 =>
        runTwo2.grid c = 2 ∧ runTwo2.fire_cluster_ids c = 1).card = 1 ∧
      List.lookup 1 runTwo2.cluster_registry =
        some ⟨1, none, 2, [(1, 1), (2, 2)]⟩ := by
  constructor
  · decide
  · decide

/-- C3 (amended): the per-step size recorded for an active cluster id —
the sample appended to its size history and the value used to raise
max_size — equals the number of cells of the cluster-id grid carrying
that id after the step (its BURNING cells plus its retained ASH cells),
not the BURNING-cell count alone; on first sight max_size starts at that
size, afterwards it is the maximum of the old max_size and the new
size. -/
theorem c3_recorded_sizes {n : Nat} (s : FFState n) (r : Rand n) (cid : Nat)
    (e2 : ClusterInfo)
    (hnd : (s.cluster_registry.map Prod.fst).Nodup)
    (hact : cid ∈ activeList r s)
    (h2 : List.lookup cid (s.step r).cluster_registry = some e2) :
    e2.sizes = evictAppend s.window_size
        (match List.lookup cid s.cluster_registry with
          | some e => e.sizes
          | none => [])
        ((s.step r).step_count,
          (Finset.univ.filter fun c : Cell n =>
            (s.step r).fire_cluster_ids c = cid).card) ∧
      e2.max_size = (match List.lookup cid s.cluster_registry with
        | some e => max e.max_size ((Finset.univ.filter fun c : Cell n =>
            (s.step r).fire_cluster_ids c = cid).card)
        | none => (Finset.univ.filter fun c : Cell n =>
            (s.step r).fire_cluster_ids c = cid).card) := by
  have he2 := lookup_step_registry_active hnd hact h2
  rw [step_stepCount, step_ids]
  cases hl : List.lookup cid s.cluster_registry with
  | none => rw [hl] at he2; rw [he2]; exact ⟨rfl, rfl⟩
  | some e => rw [hl] at he2; rw [he2]; exact ⟨rfl, rfl⟩

/-- C3 (amended), instantiated at step 2 of the small run: the entry of
cluster 1 carries exactly the sample and max_size produced from the
2-cell count of id 1 on the cluster-id grid. -/
theorem c3_witness :
    (⟨1, none, 2, [(1, 1), (2, 2)]⟩ : ClusterInfo).sizes =
        evictAppend runTwo1.window_size
          (match List.lookup 1 runTwo1.cluster_registry with
            | some e => e.sizes
            | none => [])
          ((runTwo1.step randOff2).step_count,
            (Finset.univ.filter fun c : Cell 2 =>
              (runTwo1.step randOff2).fire_cluster_ids c = 1).card) ∧
      (⟨1, none, 2, [(1, 1), (2, 2)]⟩ : ClusterInfo).max_size =
        (match List.lookup 1 runTwo1.cluster_registry with
          | some e => max e.max_size ((Finset.univ.filter fun c : Cell 2 =>
              (runTwo1.step randOff2).fire_cluster_ids c = 1).card)
          | none => (Finset.univ.filter fun c : Cell 2 =>
              (runTwo1.step randOff2).fire_cluster_ids c = 1).card) :=
  c3_recorded_sizes runTwo1 randOff2 1 ⟨1, none, 2, [(1, 1), (2, 2)]⟩
    (by decide) (by decide) (by decide)

/-! ### Claim C8 -/

lemma evictAppend_length_le {α : Type} (W : Nat) (l : List α) (x : α) :
    (evictAppend W l x).length ≤ W := by
  unfold evictAppend
  rw [List.length_drop, List.length_append]
  simp only [List.length_singleton]
  omega

lemma mem_updateOne {n : Nat} {stepc W : Nat} {ids : Cell n → Nat}
    {reg : List (Nat × ClusterInfo)} {cid : Nat} {p : Nat × ClusterInfo}
    (h : p ∈ updateOne stepc W ids reg cid) :
    p ∈ reg ∨ ∃ op, p = (cid, updatedEntry stepc W (clusterSize ids cid) op) := by
  unfold updateOne at h
  cases hl : List.lookup cid reg with
  | none =>
    rw [hl] at h
    rcases mem_setEntry h with h | h
    · exact Or.inl h
    · exact Or.inr ⟨none, h⟩
  | some e =>
    rw [hl] at h
    rcases mem_setEntry h with h | h
    · exact Or.inl h
    · exact Or.inr ⟨some e, h⟩

lemma regUpdate_sizes_bound {n : Nat} {stepc W : Nat} {ids : Cell n → Nat} :
    ∀ {L : List Nat} {reg}, (∀ p ∈ reg, (p.2).sizes.length ≤ W) →
      ∀ p ∈ regUpdate stepc W ids L reg, (p.2).sizes.length ≤ W := by
  intro L
  induction L with
  | nil => intro reg h; exact h
  | cons a t ih =>
    intro reg h
    rw [regUpdate_cons]
    refine ih (fun p hp => ?_)
    rcases mem_updateOne hp with hm | ⟨op, hm⟩
    · exact h p hm
    · rw [hm]
      cases op <;> exact evictAppend_length_le _ _ _

lemma markDeath_sizes_bound {stepc W : Nat} {reg : List (Nat × ClusterInfo)}
    {cid : Nat} (h : ∀ p ∈ reg, (p.2).sizes.length ≤ W) :
    ∀ p ∈ markDeath stepc reg cid, (p.2).sizes.length ≤ W := by
  intro p hp
  cases hl : List.lookup cid reg with
  | none => rw [markDeath_eq_of_none hl] at hp; exact h p hp
  | some e =>
    by_cases hd : e.death = none
    · rw [markDeath_eq_of_unset hl hd] at hp
      rcases mem_setEntry hp with hm | hm
      · exact h p hm
      · rw [hm]
        exact h (cid, e) (lookup_mem hl)
    · rw [markDeath_eq_of_set hl hd] at hp; exact h p hp

lemma markDeaths_sizes_bound {stepc W : Nat} :
    ∀ {dl : List Nat} {reg}, (∀ p ∈ reg, (p.2).sizes.length ≤ W) →
      ∀ p ∈ markDeaths stepc reg dl, (p.2).sizes.length ≤ W := by
  intro dl
  induction dl with
  | nil => intro reg h; exact h
  | cons a t ih =>
    intro reg h
    exact ih (markDeath_sizes_bound h)

/-- C8: in every reachable state the active fire history and every size
history in the registry hold at most window_size samples, and when the
history is full an append evicts exactly the oldest entry (strict FIFO):
the new deque is the old tail followed by the new sample. -/
theorem c8_bounded_history {n : Nat} (s : FFState n) (h : Reachable s) :
    s.active_fire_history.length ≤ s.window_size ∧
      (∀ p ∈ s.cluster_registry, (p.2).sizes.length ≤ s.window_size) ∧
      ∀ (l : List (Nat × Nat)) (x), l.length = s.window_size →
        evictAppend s.window_size l x = l.tail ++ [x] := by
  refine ⟨?_, ?_, ?_⟩
  · induction h with
    | init pt pf m => simp [mkForestFireModel]
    | next r s _ ih =>
      rw [step_history, step_window]
      exact evictAppend_length_le _ _ _
  · induction h with
    | init pt pf m => simp [mkForestFireModel]
    | next r s _ ih =>
      rw [step_registry, step_window]
      intro p hp
      exact markDeaths_sizes_bound (regUpdate_sizes_bound ih) p (mem_pruneReg hp)
  · have hw : 0 < s.window_size := by
      induction h with
      | init pt pf m => simp [mkForestFireModel]
      | next r s _ ih => rw [step_window]; exact ih
    intro l x hlen
    unfold evictAppend
    have h1 : l.length + 1 - s.window_size = 1 := by omega
    rw [h1]
    cases l with
    | nil => rw [List.length_nil] at hlen; omega
    | cons a t => simp

/-- C8, instantiated after one step of the small run: the history holds
one sample, within the window of 6000. -/
theorem c8_witness :
    runTwo1.active_fire_history.length ≤ runTwo1.window_size :=
  (c8_bounded_history runTwo1 reachable_runTwo1).1

/-! ### Claim C4 -/

/-- C4: an igniting tree cell with at least one burning 4-neighbor
receives the maximum cluster id among its burning neighbors (the id is
one of theirs and dominates all of them); an igniting cell with no
burning neighbor (pure lightning) receives a fresh id drawn at or above
the global counter, below the stepped counter, and differing from every
id present anywhere on the cluster-id grid. -/
theorem c4_ignition_id_assignment {n : Nat} (s : FFState n) (r : Rand n)
    (h : Reachable s) (c : Cell n) (hig : ignites r s c = true) :
    (fireNeighbors s.grid c = true →
      (s.step r).fire_cluster_ids c ∈ burningNbrIds s.grid s.fire_cluster_ids c ∧
        ∀ x ∈ burningNbrIds s.grid s.fire_cluster_ids c,
          x ≤ (s.step r).fire_cluster_ids c) ∧
      (fireNeighbors s.grid c = false →
        s.next_cluster_id ≤ (s.step r).fire_cluster_ids c ∧
          (s.step r).fire_cluster_ids c < (s.step r).next_cluster_id ∧
          ∀ d, s.fire_cluster_ids d ≠ (s.step r).fire_cluster_ids c) := by
  rw [step_ids, newIdsGrid_of_ignites hig]
  constructor
  · intro hfn
    have hp : propagated r s c = true := by simp [propagated, hig, hfn]
    have hval : newClusterIds r s c = maxNeighborId s.grid s.fire_cluster_ids c := by
      simp [newClusterIds, hp]
    rw [hval]
    exact ⟨foldr_max_mem (burningNbrIds_ne_nil hfn),
      fun x hx => le_foldr_max hx⟩
  · intro hfn
    have hp : propagated r s c = false := by simp [propagated, hfn]
    have hl : lightningNew r s c = true := by simp [lightningNew, hig, hfn]
    have hval : newClusterIds r s c = s.next_cluster_id + lightningRank r s c := by
      simp [newClusterIds, hp, hl]
    rw [hval, step_next]
    refine ⟨Nat.le_add_right _ _,
      Nat.add_lt_add_left (lightningRank_lt_numNewFires hl) _, fun d => ?_⟩
    have := (reachable_inv h).2.1 d
    omega

/-- C4, instantiated at step 1 of the small run: the tree at (0,0) is
struck by lightning with no burning neighbor and receives the fresh
id 1, the value of the counter, which then advances to 2. -/
theorem c4_witness :
    runTwo0.next_cluster_id ≤ runTwo1.fire_cluster_ids ((0 : Fin 2), (0 : Fin 2)) ∧
      runTwo1.fire_cluster_ids ((0 : Fin 2), (0 : Fin 2)) < runTwo1.next_cluster_id ∧
      ∀ d, runTwo0.fire_cluster_ids d ≠
        runTwo1.fire_cluster_ids ((0 : Fin 2), (0 : Fin 2)) :=
  (c4_ignition_id_assignment runTwo0 randBolt (Reachable.init 0 0 treesTwo)
    ((0 : Fin 2), (0 : Fin 2)) (by decide)).2 (by decide)

/-! ### Claim C5 -/

/-- The ids newly minted in one step, listed in the row-major order of
the lightning cells that receive them (new_ids = arange(next_cluster_id,
next_cluster_id + num_new_fires) assigned along the mask). -/
def mintedIds {n : Nat} (r : Rand n) (s : FFState n) : List Nat :=
  (((lightningCells r s).image cellIdx).sort (· ≤ ·)).map
    fun k => s.next_cluster_id +
      ((lightningCells r s).filter fun d => cellIdx d < k).card

/-- The ids minted over a whole run, step by step. -/
def mintedTrace {n : Nat} (s : FFState n) : List (Rand n) → List Nat
  | [] => []
  | r :: rs => mintedIds r s ++ mintedTrace (s.step r) rs

lemma minted_rank_lt {n : Nat} {r : Rand n} {s : FFState n} {k : Nat}
    (hk : k ∈ (lightningCells r s).image cellIdx) :
    ((lightningCells r s).filter fun d => cellIdx d < k).card < numNewFires r s := by
  obtain ⟨c, hc, hck⟩ := Finset.mem_image.mp hk
  apply Finset.card_lt_card
  constructor
  · exact Finset.filter_subset _ _
  · intro hsub
    have := hsub hc
    simp only [Finset.mem_filter] at this
    omega

lemma mem_mintedIds_bounds {n : Nat} {r : Rand n} {s : FFState n} {x : Nat}
    (h : x ∈ mintedIds r s) :
    s.next_cluster_id ≤ x ∧ x < (s.step r).next_cluster_id := by
  obtain ⟨k, hk, hx⟩ := List.mem_map.mp h
  rw [Finset.mem_sort] at hk
  rw [step_next, ← hx]
  exact ⟨Nat.le_add_right _ _, Nat.add_lt_add_left (minted_rank_lt hk) _⟩

lemma mintedIds_pairwise {n : Nat} (r : Rand n) (s : FFState n) :
    (mintedIds r s).Pairwise (· < ·) := by
  unfold mintedIds
  rw [List.pairwise_map]
  refine List.Pairwise.imp_of_mem (fun {k1 k2} h1 h2 hlt => ?_)
    (Finset.sort_sorted_lt _)
  rw [Finset.mem_sort] at h1
  apply Nat.add_lt_add_left
  apply Finset.card_lt_card
  obtain ⟨c1, hc1, hck⟩ := Finset.mem_image.mp h1
  constructor
  · intro d hd
    rw [Finset.mem_filter] at hd ⊢
    exact ⟨hd.1, lt_trans hd.2 hlt⟩
  · intro hsub
    have hin : c1 ∈ (lightningCells r s).filter fun d => cellIdx d < k2 := by
      rw [Finset.mem_filter]
      exact ⟨hc1, hck ▸ hlt⟩
    have := hsub hin
    simp only [Finset.mem_filter] at this
    omega

lemma next_mono_step {n : Nat} (s : FFState n) (r : Rand n) :
    s.next_cluster_id ≤ (s.step r).next_cluster_id := by
  rw [step_next]; exact Nat.le_add_right _ _

lemma mintedTrace_lower {n : Nat} {x : Nat} :
    ∀ {rs : List (Rand n)} {s : FFState n}, x ∈ mintedTrace s rs →
      s.next_cluster_id ≤ x := by
  intro rs
  induction rs with
  | nil => intro s h; exact absurd h (List.not_mem_nil x)
  | cons r t ih =>
    intro s h
    rcases List.mem_append.mp h with h | h
    · exact (mem_mintedIds_bounds h).1
    · exact le_trans (next_mono_step s r) (ih h)

/-- C5: over any run from any state, the concatenated sequence of newly
minted cluster ids is strictly increasing — so no id is ever handed to a
new fire event twice — and the id assigned to each lightning-struck cell
is an element of that minted sequence for its step. -/
theorem c5_id_monotonicity {n : Nat} (s : FFState n) (rs : List (Rand n)) :
    (mintedTrace s rs).Pairwise (· < ·) ∧
      ∀ (r : Rand n) (c : Cell n), lightningNew r s c = true →
        newClusterIds r s c ∈ mintedIds r s := by
  constructor
  · induction rs generalizing s with
    | nil => exact List.Pairwise.nil
    | cons r t ih =>
      rw [mintedTrace, List.pairwise_append]
      refine ⟨mintedIds_pairwise r s, ih (s.step r), fun a ha b hb => ?_⟩
      calc a < (s.step r).next_cluster_id := (mem_mintedIds_bounds ha).2
        _ ≤ b := mintedTrace_lower hb
  · intro r c hl
    have hp : propagated r s c = false := by
      simp only [lightningNew, Bool.and_eq_true, Bool.not_eq_eq_eq_not,
        Bool.not_true] at hl
      simp [propagated, hl.2]
    have hval : newClusterIds r s c = s.next_cluster_id + lightningRank r s c := by
      simp [newClusterIds, hp, hl]
    rw [hval]
    unfold mintedIds lightningRank
    have hk : cellIdx c ∈ (lightningCells r s).image cellIdx :=
      Finset.mem_image_of_mem _ (mem_lightningCells.mpr hl)
    rw [← Finset.mem_sort (α := Nat) (· ≤ ·)] at hk
    exact List.mem_map_of_mem _ hk

/-! ### Claim C9 -/

/-- C9 (amended): the constructor performs no validation at all — it is
a total function that stores its parameters as given and returns a
usable instance (a step on it runs and advances the counter), for every
grid size including 0 and for every probability value, in or out of
[0,1]. -/
theorem c9_no_validation (n : Nat) (pt pf : Rat) (m : Cell n → Bool) (r : Rand n) :
    (mkForestFireModel n pt pf m).p_tree = pt ∧
      (mkForestFireModel n pt pf m).p_fire = pf ∧
      (mkForestFireModel n pt pf m).step_count = 0 ∧
      ((mkForestFireModel n pt pf m).step r).step_count = 1 :=
  ⟨rfl, rfl, rfl, rfl⟩

/-- C9 fails on the code: with the invalid parameter set grid_size = 0,
p_tree = 2 and p_fire = -1 (both outside [0,1]) the constructor does not
report any configuration error; it returns an instance that steps
normally and records its history sample. -/
theorem c9_counterexample :
    (mkForestFireModel 0 2 (-1) (fun _ => false)).p_tree = 2 ∧
      (mkForestFireModel 0 2 (-1) (fun _ => false)).p_fire = -1 ∧
      ((mkForestFireModel 0 2 (-1) (fun _ => false)).step
          ⟨fun _ => false, fun _ => false⟩).step_count = 1 ∧
      ((mkForestFireModel 0 2 (-1) (fun _ => false)).step
          ⟨fun _ => false, fun _ => false⟩).active_fire_history = [(1, 0)] := by
  refine ⟨rfl, rfl, rfl, ?_⟩
  decide

/-! ### Claim C7: Scenario B -/

/-- Initial trees of the Scenario B run on a 3 x 3 grid: a pair in the
top row and a pair in the bottom row, the two regions disjoint. -/
def initThree : Cell 3 → Bool := fun c =>
  decide (c = ((0 : Fin 3), (0 : Fin 3)) ∨ c = ((0 : Fin 3), (1 : Fin 3)) ∨
    c = ((2 : Fin 3), (1 : Fin 3)) ∨ c = ((2 : Fin 3), (2 : Fin 3)))

/-- Step-1 randomness of Scenario B: lightning strikes (0,0) and (2,2),
creating the two disjoint burning regions with ids 1 and 2. -/
def randBoltB : Rand 3 := ⟨fun _ => false, fun c =>
  decide (c = ((0 : Fin 3), (0 : Fin 3)) ∨ c = ((2 : Fin 3), (2 : Fin 3)))⟩

/-- All draws fail (p_tree = 0 and p_fire = 0), on the 3 x 3 grid. -/
def randOff3 : Rand 3 := ⟨fun _ => false, fun _ => false⟩

/-- The randomness stream of Scenario B: one double lightning strike,
then nothing (p_tree = 0 and p_fire = 0 from there on). -/
def randSeqB (m : Nat) : Rand 3 := if m = 0 then randBoltB else randOff3

/-- Scenario B, step by step. -/
def runB : Nat → FFState 3
  | 0 => mkForestFireModel 3 0 0 initThree
  | m + 1 => (runB m).step (randSeqB m)

lemma runB_succ (m : Nat) : runB (m + 1) = (runB m).step (randSeqB m) := rfl

lemma randSeqB_pos {m : Nat} (h : m ≠ 0) : randSeqB m = randOff3 := by
  simp [randSeqB, h]

/-- The registry both fires leave behind: id 1 and id 2 born at step 1,
dead at step 3, with peak recorded size 2 and two samples each. -/
def regB : List (Nat × ClusterInfo) :=
  [(1, ⟨1, some 3, 2, [(1, 1), (2, 2)]⟩), (2, ⟨1, some 3, 2, [(1, 1), (2, 2)]⟩)]

/-- The quiet tail of Scenario B: an empty grid carrying only the
bookkeeping (step counter, history, the registry regB). -/
def quiescentB (m : Nat) (hist : List (Nat × Nat)) : FFState 3 where
  p_tree := 0
  p_fire := 0
  grid := fun _ => 0
  fire_cluster_ids := fun _ => 0
  next_cluster_id := 3
  step_count := m
  window_size := 6000
  active_fire_history := hist
  cluster_registry := regB
  current_clusters := []

/-- Scenario B after step 1: both struck trees burn, ids 1 and 2. -/
def sB1 : FFState 3 where
  p_tree := 0
  p_fire := 0
  grid := fun c =>
    if c = ((0 : Fin 3), (0 : Fin 3)) then 2
    else if c = ((0 : Fin 3), (1 : Fin 3)) then 1
    else if c = ((2 : Fin 3), (1 : Fin 3)) then 1
    else if c = ((2 : Fin 3), (2 : Fin 3)) then 2 else 0
  fire_cluster_ids := fun c =>
    if c = ((0 : Fin 3), (0 : Fin 3)) then 1
    else if c = ((2 : Fin 3), (2 : Fin 3)) then 2 else 0
  next_cluster_id := 3
  step_count := 1
  window_size := 6000
  active_fire_history := [(1, 2)]
  cluster_registry := [(1, ⟨1, none, 1, [(1, 1)]⟩), (2, ⟨1, none, 1, [(1, 1)]⟩)]
  current_clusters := [(1, 1), (2, 1)]

/-- Scenario B after step 2: the fires spread to the neighbor trees, the
struck cells turn to ash, both clusters occupy two cells. -/
def sB2 : FFState 3 where
  p_tree := 0
  p_fire := 0
  grid := fun c =>
    if c = ((0 : Fin 3), (0 : Fin 3)) then 3
    else if c = ((0 : Fin 3), (1 : Fin 3)) then 2
    else if c = ((2 : Fin 3), (1 : Fin 3)) then 2
    else if c = ((2 : Fin 3), (2 : Fin 3)) then 3 else 0
  fire_cluster_ids := fun c =>
    if c = ((0 : Fin 3), (0 : Fin 3)) then 1
    else if c = ((0 : Fin 3), (1 : Fin 3)) then 1
    else if c = ((2 : Fin 3), (1 : Fin 3)) then 2
    else if c = ((2 : Fin 3), (2 : Fin 3)) then 2 else 0
  next_cluster_id := 3
  step_count := 2
  window_size := 6000
  active_fire_history := [(1, 2), (2, 2)]
  cluster_registry := [(1, ⟨1, none, 2, [(1, 1), (2, 2)]⟩), (2, ⟨1, none, 2, [(1, 1), (2, 2)]⟩)]
  current_clusters := [(1, 2), (2, 2)]

lemma runB_one : runB 1 = sB1 := by
  apply FFState.ext
  · rfl
  · rfl
  · funext c; revert c; decide
  · funext c; revert c; decide
  · decide
  · rfl
  · rfl
  · decide
  · decide
  · decide

lemma runB_two : runB 2 = sB2 := by
  rw [runB_succ, runB_one, randSeqB_pos (by omega)]
  apply FFState.ext
  · rfl
  · rfl
  · funext c; revert c; decide
  · funext c; revert c; decide
  · decide
  · rfl
  · rfl
  · decide
  · decide
  · decide

lemma runB_three : runB 3 = quiescentB 3 [(1, 2), (2, 2), (3, 0)] := by
  rw [runB_succ, runB_two, randSeqB_pos (by omega)]
  apply FFState.ext
  · rfl
  · rfl
  · funext c; revert c; decide
  · funext c; revert c; decide
  · decide
  · rfl
  · rfl
  · decide
  · decide
  · decide

/-- Stepping a state whose grid is entirely empty, under draws that all
fail: the grid and id grid stay empty, the counter advances, a (step, 0)
sample joins the history, and the registry is only pruned. -/
lemma step_quiescent {n : Nat} (s : FFState n) (r : Rand n)
    (hg : ∀ c, s.grid c = 0) (hr : ∀ c, r.newTree c = false)
    (hcc : s.current_clusters = []) :
    s.step r = { s with
      grid := fun _ => 0
      fire_cluster_ids := fun _ => 0
      step_count := s.step_count + 1
      active_fire_history :=
        evictAppend s.window_size s.active_fire_history (s.step_count + 1, 0)
      cluster_registry := pruneReg (s.step_count + 1) s.window_size s.cluster_registry
      current_clusters := [] } := by
  have hig : ∀ c, ignites r s c = false := fun c =>
    ignites_of_grid_ne (by simp [hg c])
  have hash : ∀ c, activeAsh r s c = false := fun c => by
    have h0 : ashIds s c = 0 := ashIds_of_other (by simp [hg c]) (by simp [hg c])
    simp [activeAsh, h0]
  have hng : ∀ c, newGrid r s c = 0 := fun c => by
    simp [newGrid, hig c, hash c, hg c, hr c]
  have hni : ∀ c, newIdsGrid r s c = 0 := fun c =>
    newIdsGrid_of_neither (hig c) (hash c)
  have hnum : numNewFires r s = 0 := by
    unfold numNewFires lightningCells
    rw [Finset.filter_eq_empty_iff.mpr (fun c _ => by
      simp [lightningNew, hig c])]
    exact Finset.card_empty
  have hfire : (Finset.univ.filter fun c : Cell n => newGrid r s c = 2) = ∅ :=
    Finset.filter_eq_empty_iff.mpr (fun c _ => by simp [hng c])
  have hal : activeList r s = [] := by
    have hinner : (allCells n).filter (fun c => newGrid r s c == 2) = [] :=
      List.filter_eq_nil_iff.mpr (fun c _ => by simp [hng c])
    unfold activeList
    rw [hinner]
    rfl
  apply FFState.ext
  · rfl
  · rfl
  · rw [step_grid]; funext c; exact hng c
  · rw [step_ids]; funext c; exact hni c
  · rw [step_next, hnum]; rfl
  · rfl
  · rfl
  · rw [step_history, hfire]; rfl
  · rw [step_registry, hal, hcc]; rfl
  · rw [step_current, hal]; rfl

lemma pruneReg_regB {m : Nat} (hm : m ≤ 6003) : pruneReg m 6000 regB = regB := by
  have h3 : m - 3 ≤ 6000 := by omega
  simp [pruneReg, regB, List.filter, h3]

/-- The quiet tail of Scenario B, by induction: for the whole window
after the deaths at step 3, both registry entries persist untouched. -/
lemma runB_quiet : ∀ k, k ≤ 6000 →
    ∃ hist, runB (3 + k) = quiescentB (3 + k) hist := by
  intro k
  induction k with
  | zero => exact fun _ => ⟨[(1, 2), (2, 2), (3, 0)], runB_three⟩
  | succ k ih =>
    intro hk
    obtain ⟨hist, hq⟩ := ih (by omega)
    refine ⟨evictAppend 6000 hist (3 + k + 1, 0), ?_⟩
    rw [show 3 + (k + 1) = (3 + k) + 1 from rfl, runB_succ,
      randSeqB_pos (by omega), hq,
      step_quiescent _ _ (fun c => rfl) (fun c => rfl) rfl]
    have hpr : pruneReg (3 + k + 1) 6000 regB = regB := pruneReg_regB (by omega)
    unfold quiescentB
    simp only [hpr]

/-- C7 fails on the code at its pruning clause: in a faithful Scenario B
run the two clusters die at step 3, and at step 6003 = death + W both
registry entries are still present — they are not removed exactly W
steps after death (pruning only fires once step_count - death exceeds
W). -/
theorem c7_counterexample :
    (runB 6003).step_count = 6003 ∧ (runB 6003).window_size = 6000 ∧
      List.lookup 1 (runB 6003).cluster_registry =
        some ⟨1, some 3, 2, [(1, 1), (2, 2)]⟩ ∧
      List.lookup 2 (runB 6003).cluster_registry =
        some ⟨1, some 3, 2, [(1, 1), (2, 2)]⟩ := by
  obtain ⟨hist, hq⟩ := runB_quiet 6000 (le_refl 6000)
  have hsc : (runB 6003).step_count = 6003 := by
    rw [show (6003 : Nat) = 3 + 6000 from rfl, hq]; rfl
  have hw : (runB 6003).window_size = 6000 := by
    rw [show (6003 : Nat) = 3 + 6000 from rfl, hq]; rfl
  have hreg : (runB 6003).cluster_registry = regB := by
    rw [show (6003 : Nat) = 3 + 6000 from rfl, hq]; rfl
  refine ⟨hsc, hw, ?_, ?_⟩ <;> rw [hreg] <;> decide

/-- C7 (amended): in Scenario B both registry entries acquire death = 3,
the first step at which their BURNING count reaches 0 (each id still has
a burning cell at step 2); the entries then stay in the registry through
step death + W = 6003 and are removed at step death + W + 1 = 6004, the
first step with step_count - death > W. -/
theorem c7_scenario_b :
    ((Finset.univ.filter fun c : Cell 3 =>
        (runB 2).grid c = 2 ∧ (runB 2).fire_cluster_ids c = 1).card = 1 ∧
      (Finset.univ.filter fun c : Cell 3 =>
        (runB 2).grid c = 2 ∧ (runB 2).fire_cluster_ids c = 2).card = 1) ∧
    ((Finset.univ.filter fun c : Cell 3 =>
        (runB 3).grid c = 2 ∧ (runB 3).fire_cluster_ids c = 1).card = 0 ∧
      (Finset.univ.filter fun c : Cell 3 =>
        (runB 3).grid c = 2 ∧ (runB 3).fire_cluster_ids c = 2).card = 0) ∧
    (List.lookup 1 (runB 3).cluster_registry =
        some ⟨1, some 3, 2, [(1, 1), (2, 2)]⟩ ∧
      List.lookup 2 (runB 3).cluster_registry =
        some ⟨1, some 3, 2, [(1, 1), (2, 2)]⟩) ∧
    (List.lookup 1 (runB 6003).cluster_registry ≠ none ∧
      List.lookup 2 (runB 6003).cluster_registry ≠ none) ∧
    (runB 6004).cluster_registry = [] := by
  obtain ⟨hist, hq⟩ := runB_quiet 6000 (le_refl 6000)
  have h6004 : runB 6004 = (runB 6003).step randOff3 := by
    rw [show (6004 : Nat) = 6003 + 1 from rfl, runB_succ,
      randSeqB_pos (by omega)]
  have hreg : (runB 6003).cluster_registry = regB := by
    rw [show (6003 : Nat) = 3 + 6000 from rfl, hq]; rfl
  have hreg4 : (runB 6004).cluster_registry = pruneReg (3 + 6000 + 1) 6000 regB := by
    rw [h6004, show (6003 : Nat) = 3 + 6000 from rfl, hq,
      step_quiescent _ _ (fun c => rfl) (fun c => rfl) rfl]
    rfl
  refine ⟨⟨?_, ?_⟩, ⟨?_, ?_⟩, ⟨?_, ?_⟩, ⟨?_, ?_⟩, ?_⟩
  · rw [runB_two]; decide
  · rw [runB_two]; decide
  · rw [runB_three]; decide
  · rw [runB_three]; decide
  · rw [runB_three]; decide
  · rw [runB_three]; decide
  · rw [hreg]; decide
  · rw [hreg]; decide
  · rw [hreg4]; decide

end ForestFire
